import Mathlib

/-!
Shallow embedding of the IGED core (command parser, memory engine,
orchestrator dispatch, voice/text pipeline) from:
  core/command_parser.py, core/memory_engine.py,
  agents/orchestrator.py, core/voice_pipeline.py.

Python regular expressions are embedded as an explicit pattern AST
(`Rx`) together with a backtracking matcher whose alternative order
mirrors Python's leftmost, priority-ordered backtracking search.
Wall-clock inputs (`time.time()`, `datetime.now().isoformat()`) are
passed in as explicit parameters.
-/

namespace IGED

/-- Whitespace characters of Python's `str.strip` / `str.split` / `\s`
(ASCII range, which is all the embedded code ever meets). -/
def isPySpace (c : Char) : Bool :=
  c = ' ' || c = '\t' || c = '\n' || c = '\x0d' || c = '\x0c' || c = '\x0b'

/-- Decimal digit, Python `\d` (ASCII). -/
def isPyDigit (c : Char) : Bool :=
  '0' ≤ c && c ≤ '9'

/-- Word character, Python `\w` / the classes relevant to `\b` (ASCII). -/
def isWordChar (c : Char) : Bool :=
  ('a' ≤ c && c ≤ 'z') || ('A' ≤ c && c ≤ 'Z') || isPyDigit c || c = '_'

/-- Python `str.lower` on a character list (ASCII). -/
def lowerL (s : List Char) : List Char :=
  s.map Char.toLower

/-- Python `str.strip()`: drop leading and trailing whitespace. -/
def pyStrip (s : List Char) : List Char :=
  ((s.dropWhile isPySpace).reverse.dropWhile isPySpace).reverse

/-- Does `hay` start with `needle`? -/
def startsWith : List Char → List Char → Bool
  | [], _ => true
  | _ :: _, [] => false
  | a :: as, b :: bs => a = b && startsWith as bs

/-- Python's substring test `needle in hay`. -/
def containsSub (needle : List Char) : List Char → Bool
  | [] => needle.isEmpty
  | c :: rest => startsWith needle (c :: rest) || containsSub needle rest

/-- Worker for `splitWs`; `cur` holds the current word reversed. -/
def splitWsGo (cur : List Char) : List Char → List (List Char)
  | [] => if cur.isEmpty then [] else [cur.reverse]
  | c :: rest =>
    if isPySpace c then
      if cur.isEmpty then splitWsGo [] rest
      else cur.reverse :: splitWsGo [] rest
    else splitWsGo (c :: cur) rest

/-- Python `str.split()` with no argument: split on whitespace runs,
discarding empty pieces. -/
def splitWs (s : List Char) : List (List Char) :=
  splitWsGo [] s

/-- One alternative inside a regex character class. -/
inductive CSpec where
  | one (c : Char)
  | rng (lo hi : Char)
  | digit
  | space
  | word
deriving DecidableEq, Repr

/-- Regex abstract syntax: the fragment of Python `re` used by the
command parser (`?` and `{m,n}` are encoded with `alt`/`seq`). -/
inductive Rx where
  | eps
  | cls (neg : Bool) (specs : List CSpec)
  | seq (a b : Rx)
  | alt (a b : Rx)
  | star (a : Rx)
  | grp (idx : Nat) (a : Rx)
  | bnd
deriving DecidableEq, Repr

def cspecMatch (c : Char) : CSpec → Bool
  | .one a => c = a
  | .rng lo hi => lo ≤ c && c ≤ hi
  | .digit => isPyDigit c
  | .space => isPySpace c
  | .word => isWordChar c

/-- Character-class test; `ci` is Python's `re.IGNORECASE` (the embedded
patterns are written in lowercase, so lowering the subject char suffices). -/
def clsMatch (ci neg : Bool) (specs : List CSpec) (c : Char) : Bool :=
  let c := if ci then c.toLower else c
  let hit := specs.any (cspecMatch c)
  if neg then !hit else hit

/-- Captured groups: `(index, captured characters)`, in capture order. -/
abbrev Groups := List (Nat × List Char)

/-- Backtracking matcher. `mtch ci fuel r prev s` returns, in Python's
backtracking priority order, every way `r` can match a prefix of `s`:
`(last consumed char, remaining suffix, captured groups)`.  `prev` is the
character just before the current position (for `\b`).  `fuel` only
bounds recursion depth; callers pass enough for the strings at hand. -/
def mtch (ci : Bool) : Nat → Rx → Option Char → List Char → List (Option Char × List Char × Groups)
  | 0, _, _, _ => []
  | fuel + 1, r, prev, s =>
    match r with
    | .eps => [(prev, s, [])]
    | .cls neg specs =>
      match s with
      | [] => []
      | c :: rest => if clsMatch ci neg specs c then [(some c, rest, [])] else []
    | .seq a b =>
      (mtch ci fuel a prev s).flatMap fun pa =>
        (mtch ci fuel b pa.1 pa.2.1).map fun pb => (pb.1, pb.2.1, pa.2.2 ++ pb.2.2)
    | .alt a b => mtch ci fuel a prev s ++ mtch ci fuel b prev s
    | .star a =>
      ((mtch ci fuel a prev s).flatMap fun pa =>
        if pa.2.1.length < s.length then
          (mtch ci fuel (.star a) pa.1 pa.2.1).map fun pb => (pb.1, pb.2.1, pa.2.2 ++ pb.2.2)
        else []) ++ [(prev, s, [])]
    | .grp idx a =>
      (mtch ci fuel a prev s).map fun pa =>
        (pa.1, pa.2.1, pa.2.2 ++ [(idx, s.take (s.length - pa.2.1.length))])
    | .bnd =>
      let pw := match prev with | some c => isWordChar c | none => false
      let nw := match s with | c :: _ => isWordChar c | [] => false
      if pw ≠ nw then [(prev, s, [])] else []

/-- Fuel that strictly dominates the matcher's recursion depth for the
patterns in this file (AST height plus stacked star iterations). -/
def rxFuel (s : List Char) : Nat :=
  4 * s.length + 200

/-- Python group lookup `m.group(i)`: the last capture of group `i`. -/
def lookupLast (g : Groups) (i : Nat) : Option (List Char) :=
  (g.filter (fun p => p.1 == i)).getLast?.map Prod.snd

/-- Leftmost search step: try to match at the current position, else
advance one character.  Mirrors `re.search`. -/
def searchGo (ci : Bool) (fuel : Nat) (r : Rx) (prev : Option Char) (s : List Char) :
    Option (List Char × Groups) :=
  match mtch ci fuel r prev s with
  | hit :: _ => some (s.take (s.length - hit.2.1.length), hit.2.2)
  | [] =>
    match s with
    | [] => none
    | c :: rest => searchGo ci fuel r (some c) rest

/-- Python `re.search(r, s)`: full matched text and groups of the
leftmost match, if any. -/
def rsearch (ci : Bool) (r : Rx) (s : List Char) : Option (List Char × Groups) :=
  searchGo ci (rxFuel s) r none s

/-- The full text of the leftmost match, `m.group(0)`. -/
def searchFull (ci : Bool) (r : Rx) (s : List Char) : Option (List Char) :=
  (rsearch ci r s).map Prod.fst

/-- Group 1 of the leftmost match. -/
def searchGrp1 (ci : Bool) (r : Rx) (s : List Char) : Option (List Char) :=
  (rsearch ci r s).bind fun m => lookupLast m.2 1

/-- Scanning loop of `re.findall`: non-overlapping matches left to right,
advancing past each match (one char past an empty match or a failure). -/
def findallGo (ci : Bool) (r : Rx) (mfuel : Nat) : Nat → Option Char → List Char → List (List Char × Groups)
  | 0, _, _ => []
  | fuel + 1, prev, s =>
    match mtch ci mfuel r prev s with
    | (p, rest, g) :: _ =>
      let full := s.take (s.length - rest.length)
      if full.isEmpty then
        (full, g) :: (match s with
          | [] => []
          | c :: cs => findallGo ci r mfuel fuel (some c) cs)
      else
        (full, g) :: findallGo ci r mfuel fuel p rest
    | [] =>
      match s with
      | [] => []
      | c :: cs => findallGo ci r mfuel fuel (some c) cs

/-- Python `re.findall(r, s)` (full matches plus groups; callers project
out the full text or group 1 exactly as `findall` would). -/
def rfindall (ci : Bool) (r : Rx) (s : List Char) : List (List Char × Groups) :=
  findallGo ci r (rxFuel s) (s.length + 1) none s

/-- Single literal character pattern. -/
def rch (c : Char) : Rx :=
  .cls false [.one c]

/-- Literal string pattern. -/
def rstr (s : String) : Rx :=
  s.data.foldr (fun c acc => .seq (rch c) acc) .eps

/-- Ordered alternation `(?:r1|r2|...)`. -/
def alts : List Rx → Rx
  | [] => .cls false []
  | [r] => r
  | r :: rest => .alt r (alts rest)

/-- Greedy `r?`. -/
def ropt (r : Rx) : Rx :=
  .alt r .eps

/-- Greedy `r+`. -/
def rplus (r : Rx) : Rx :=
  .seq r (.star r)

/-- Pattern `\s+`. -/
def sp1 : Rx :=
  rplus (.cls false [.space])

/-- Pattern `\d`. -/
def rdigit : Rx :=
  .cls false [.digit]

/-- Greedy `\d{1,3}`. -/
def d13 : Rx :=
  .seq rdigit (ropt (.seq rdigit (ropt rdigit)))

/-- Python `.` (any character except newline). -/
def anyNoNl : Rx :=
  .cls true [.one '\n']

/-! Patterns of `CommandParser.command_patterns`, in source order. -/

def codegenRx : List Rx :=
  let objs := alts [rstr "flask", rstr "web", rstr "python", rstr "script",
    rstr "api", rstr "rest", rstr "html", rstr "website"]
  let optA := ropt (.seq (rstr "a") sp1)
  [ .seq (alts [rstr "generate", rstr "create", rstr "make", rstr "build"]) (.seq sp1 (.seq optA objs)),
    .seq (alts [rstr "write", rstr "code"]) (.seq sp1 (.seq optA objs)),
    .seq (alts [rstr "develop", rstr "program"]) (.seq sp1 (.seq optA objs)) ]

def secopsRx : List Rx :=
  [ .seq (alts [rstr "scan", rstr "check", rstr "test", rstr "audit"])
      (.seq sp1 (.seq (ropt (.seq (rstr "for") sp1))
        (alts [rstr "vulnerabilities", rstr "security", rstr "ports", rstr "network"]))),
    .seq (alts [rstr "security", rstr "penetration", rstr "vulnerability"])
      (.seq sp1 (alts [rstr "scan", rstr "test", rstr "audit"])),
    .seq (alts [rstr "port", rstr "network"])
      (.seq sp1 (alts [rstr "scan", rstr "check", rstr "test"])),
    .seq (alts [rstr "web", rstr "http", rstr "https"])
      (.seq sp1 (.seq (alts [rstr "security", rstr "vulnerability"])
        (.seq sp1 (alts [rstr "scan", rstr "check"])))) ]

def advancedSecopsRx : List Rx :=
  [ .seq (alts [rstr "penetrate", rstr "hack", rstr "exploit", rstr "breach"])
      (.seq sp1 (.seq (alts [rstr "into", rstr "to", rstr "the"]) sp1)),
    .seq (alts [rstr "advanced", rstr "deep", rstr "comprehensive"])
      (.seq sp1 (alts [rstr "penetration", rstr "security", rstr "hacking"])),
    .seq (alts [.seq (rstr "zero") (.seq (ropt anyNoNl) (rstr "day")), rstr "exploit", rstr "vulnerability"])
      (.seq sp1 (alts [rstr "scan", rstr "test", rstr "attack"])),
    .seq (alts [rstr "persistent", rstr "backdoor", rstr "covert"])
      (.seq sp1 (alts [rstr "access", rstr "connection", rstr "control"])) ]

def networkIntelligenceRx : List Rx :=
  [ .seq (alts [rstr "monitor", rstr "surveillance", rstr "intercept"])
      (.seq sp1 (alts [rstr "network", rstr "traffic", rstr "communication"])),
    .seq (alts [rstr "capture", rstr "analyze", rstr "decode"])
      (.seq sp1 (alts [rstr "packets", rstr "traffic", rstr "protocols"])),
    .seq (alts [rstr "device", rstr "inventory", rstr "discovery"])
      (.seq sp1 (alts [rstr "network", rstr "devices", rstr "systems"])),
    .seq (alts [rstr "intelligence", rstr "reconnaissance", rstr "gathering"])
      (.seq sp1 (alts [rstr "network", rstr "system"])) ]

def remoteControlRx : List Rx :=
  [ .seq (alts [rstr "connect", rstr "establish", rstr "control"])
      (.seq sp1 (alts [rstr "remote", rstr "to", rstr "connection"])),
    .seq (alts [rstr "execute", rstr "run", rstr "command"])
      (.seq sp1 (alts [rstr "remote", rstr "on", rstr "system"])),
    .seq (alts [rstr "deploy", rstr "payload", rstr "backdoor"])
      (.seq sp1 (alts [rstr "to", rstr "on", rstr "system"])),
    .seq (alts [rstr "monitor", rstr "surveillance"])
      (.seq sp1 (alts [rstr "remote", rstr "system", rstr "device"])) ]

def dataminerRx : List Rx :=
  [ .seq (alts [rstr "analyze", rstr "process", rstr "mine", rstr "extract"])
      (.seq sp1 (alts [rstr "data", rstr "dataset", rstr "file"])),
    .seq (alts [rstr "data", rstr "statistical"])
      (.seq sp1 (alts [rstr "analysis", rstr "processing", rstr "mining"])),
    .seq (alts [rstr "visualize", rstr "plot", rstr "chart"])
      (.seq sp1 (alts [rstr "data", rstr "dataset"])),
    .seq (alts [rstr "generate", rstr "create"])
      (.seq sp1 (.seq (alts [rstr "statistics", rstr "stats", rstr "report"])
        (.seq sp1 (alts [rstr "for", rstr "from"])))) ]

/-- `CommandParser.command_patterns`: agent groups in registration order. -/
def commandPatterns : List (String × List Rx) :=
  [ ("codegen", codegenRx),
    ("secops", secopsRx),
    ("advanced_secops", advancedSecopsRx),
    ("network_intelligence", networkIntelligenceRx),
    ("remote_control", remoteControlRx),
    ("dataminer", dataminerRx) ]

/-! Patterns of `CommandParser.parameter_patterns`. -/

/-- Pattern `["\']([^"\']*\.(?:csv|xlsx|xls|json|txt|py|html|js|css))["\']`. -/
def filePathRx : Rx :=
  .seq (.cls false [.one '"', .one '\''])
    (.seq (.grp 1 (.seq (.star (.cls true [.one '"', .one '\'']))
        (.seq (rch '.') (alts [rstr "csv", rstr "xlsx", rstr "xls", rstr "json",
          rstr "txt", rstr "py", rstr "html", rstr "js", rstr "css"]))))
      (.cls false [.one '"', .one '\'']))

/-- Pattern `https?://[^\s]+`. -/
def urlRx : Rx :=
  .seq (rstr "http") (.seq (ropt (rch 's')) (.seq (rstr "://") (rplus (.cls true [.space]))))

/-- Pattern `\b(?:\d{1,3}\.){3}\d{1,3}\b`. -/
def ipRx : Rx :=
  .seq .bnd (.seq (.seq d13 (rch '.'))
    (.seq (.seq d13 (rch '.')) (.seq (.seq d13 (rch '.')) (.seq d13 .bnd))))

/-- Pattern `(?:scan|check|test)\s+(?:the\s+)?([a-zA-Z0-9.-]+)`. -/
def hostnameRx : Rx :=
  .seq (alts [rstr "scan", rstr "check", rstr "test"])
    (.seq sp1 (.seq (ropt (.seq (rstr "the") sp1))
      (.grp 1 (rplus (.cls false [.rng 'a' 'z', .rng 'A' 'Z', .rng '0' '9', .one '.', .one '-'])))))

/-- Pattern `(?:for|on|at)\s+([a-zA-Z0-9._-]+)`. -/
def targetRx : Rx :=
  .seq (alts [rstr "for", rstr "on", rstr "at"])
    (.seq sp1 (.grp 1 (rplus (.cls false [.rng 'a' 'z', .rng 'A' 'Z', .rng '0' '9', .one '.', .one '_', .one '-']))))

/-- Boolean-flag patterns of `_extract_parameters`, in dict order. -/
def booleanFlags : List (String × Rx) :=
  [ ("verbose", .seq .bnd (.seq (alts [rstr "verbose", rstr "detailed", rstr "full"]) .bnd)),
    ("quiet", .seq .bnd (.seq (alts [rstr "quiet", rstr "silent", rstr "minimal"]) .bnd)),
    ("force", .seq .bnd (.seq (alts [rstr "force", rstr "overwrite"]) .bnd)),
    ("recursive", .seq .bnd (.seq (alts [rstr "recursive", rstr "recursively"]) .bnd)) ]

/-- Numeric patterns of `_extract_parameters`, in dict order. -/
def numericPatterns : List (String × Rx) :=
  [ ("timeout", .seq (alts [rstr "timeout", rstr "time"]) (.seq sp1 (.grp 1 (rplus rdigit)))),
    ("limit", .seq (alts [rstr "limit", rstr "max", rstr "maximum"]) (.seq sp1 (.grp 1 (rplus rdigit)))),
    ("port", .seq (rstr "port") (.seq sp1 (.grp 1 (rplus rdigit)))) ]

/-- Parameter values a parsed command can carry. -/
inductive PVal where
  | strs (l : List String)
  | flag (b : Bool)
  | intv (n : Nat)
deriving DecidableEq, Repr

/-- Ordered parameter map (Python dict, insertion order). -/
abbrev Params := List (String × PVal)

/-- Structured command, the dict built by `CommandParser.parse_command`
(the `error` key is present only on the error path). -/
structure Command where
  original_text : String
  command_type : String
  agent : String
  target : String
  parameters : Params
  error : Option String
  confidence : ℚ
  timestamp : String
deriving DecidableEq, Repr

/-- Python `sub in text` on lowercased text for the keyword checks below. -/
def hasKw (kw : String) (t : List Char) : Bool :=
  containsSub kw.data t

/-- `CommandParser._get_command_type` (receives the lowercased text). -/
def getCommandType (t : List Char) (agent : String) : String :=
  if agent = "codegen" then
    if hasKw "flask" t || hasKw "web" t then "generate_web_app"
    else if hasKw "python" t || hasKw "script" t then "generate_script"
    else if hasKw "api" t || hasKw "rest" t then "generate_api"
    else if hasKw "html" t || hasKw "website" t then "generate_website"
    else "generate_code"
  else if agent = "secops" then
    if hasKw "port" t then "port_scan"
    else if hasKw "network" t then "network_scan"
    else if hasKw "web" t || hasKw "http" t then "web_security_scan"
    else "security_scan"
  else if agent = "advanced_secops" then
    if hasKw "penetrate" t || hasKw "hack" t then "penetration_test"
    else if hasKw "exploit" t then "exploit_target"
    else if hasKw "persistent" t || hasKw "backdoor" t then "establish_persistence"
    else "advanced_security_scan"
  else if agent = "network_intelligence" then
    if hasKw "monitor" t || hasKw "surveillance" t then "network_monitoring"
    else if hasKw "intercept" t || hasKw "capture" t then "packet_interception"
    else if hasKw "analyze" t || hasKw "intelligence" t then "traffic_analysis"
    else if hasKw "device" t || hasKw "inventory" t then "device_discovery"
    else "comprehensive_intelligence"
  else if agent = "remote_control" then
    if hasKw "connect" t || hasKw "establish" t then "establish_connection"
    else if hasKw "control" t || hasKw "command" t then "execute_remote_command"
    else if hasKw "monitor" t || hasKw "surveillance" t then "remote_monitoring"
    else if hasKw "payload" t || hasKw "deploy" t then "deploy_payload"
    else "remote_system_control"
  else if agent = "dataminer" then
    if hasKw "analyze" t then "analyze_data"
    else if hasKw "extract" t || hasKw "mine" t then "extract_data"
    else if hasKw "visualize" t || hasKw "plot" t then "visualize_data"
    else if hasKw "statistics" t || hasKw "stats" t then "generate_statistics"
    else "process_data"
  else "execute"

/-- `CommandParser._identify_command_type`: scan agent groups in
registration order, first group with any matching pattern wins;
default `('general', 'orchestrator')`.  Returns `(command_type, agent)`. -/
def identifyCommandType (tl : List Char) : String × String :=
  match commandPatterns.find? (fun ag => ag.2.any (fun p => (rsearch true p tl).isSome)) with
  | some ag => (getCommandType tl ag.1, ag.1)
  | none => ("general", "orchestrator")

/-- Stop words skipped by the fallback branch of `_extract_target`. -/
def skipWords : List String :=
  ["generate", "create", "make", "build", "scan", "check", "test", "analyze", "process"]

/-- `CommandParser._extract_target` (the `command_type` argument is
unused in the source body as well). -/
def extractTarget (t : List Char) (_commandType : String) : String :=
  match searchGrp1 false filePathRx t with
  | some m => String.mk m
  | none =>
  match searchFull false urlRx t with
  | some m => String.mk m
  | none =>
  match searchFull false ipRx t with
  | some m => String.mk m
  | none =>
  match searchGrp1 true hostnameRx t with
  | some m => String.mk m
  | none =>
  match searchGrp1 true targetRx t with
  | some m => String.mk m
  | none =>
  let words := splitWs t
  if words.length > 2 then
    let targetWords := (words.drop 2).filter
      (fun w => !(skipWords.map String.data).contains (lowerL w))
    if !targetWords.isEmpty then
      String.intercalate " " ((targetWords.take 3).map String.mk)
    else String.mk t
  else String.mk t

/-- Decimal digits to a number, Python `int(...)` on a `\d+` capture. -/
def digitsToNat (l : List Char) : Nat :=
  l.foldl (fun a c => a * 10 + (c.toNat - '0'.toNat)) 0

/-- `CommandParser._extract_parameters`: list-valued path/url/ip
parameters, boolean flags, numeric parameters, in source order. -/
def extractParameters (t : List Char) : Params :=
  let files := (rfindall false filePathRx t).filterMap (fun m => lookupLast m.2 1)
  let urls := (rfindall false urlRx t).map Prod.fst
  let ips := (rfindall false ipRx t).map Prod.fst
  (if !files.isEmpty then [("files", PVal.strs (files.map String.mk))] else [])
  ++ (if !urls.isEmpty then [("urls", PVal.strs (urls.map String.mk))] else [])
  ++ (if !ips.isEmpty then [("ip_addresses", PVal.strs (ips.map String.mk))] else [])
  ++ (booleanFlags.filterMap fun fp =>
        if (rsearch true fp.2 t).isSome then some (fp.1, PVal.flag true) else none)
  ++ (numericPatterns.filterMap fun np =>
        (searchGrp1 true np.2 t).map (fun d => (np.1, PVal.intv (digitsToNat d))))

/-- Keywords that raise confidence in `_calculate_confidence`. -/
def specificKeywords : List String :=
  ["generate", "create", "scan", "analyze", "process"]

/-- `CommandParser._calculate_confidence` (exact rational arithmetic; the
claims depend only on the `[0,1]` clamp, which is rounding-robust). -/
def calculateConfidence (t : List Char) (_commandType : String) : ℚ :=
  let c1 : ℚ := 1/2
  let c2 := if (splitWs t).length > 3 then c1 + 2/10 else c1
  let c3 := if specificKeywords.any (fun kw => containsSub kw.data (lowerL t)) then c2 + 2/10 else c2
  let c4 := if (rsearch false filePathRx t).isSome || (rsearch false urlRx t).isSome
    then c3 + 1/10 else c3
  min c4 1

/-- `CommandParser._create_error_command`. -/
def createErrorCommand (msg : String) (now : String) : Command :=
  { original_text := ""
    command_type := "error"
    agent := "unknown"
    target := ""
    parameters := []
    error := some msg
    confidence := 0
    timestamp := now }

/-- `CommandParser.parse_command`; `now` stands for
`datetime.now().isoformat()`.  The body raises no exception in this
model, so the `except` branch of the source is unreachable here. -/
def parseCommand (text : String) (now : String) : Command :=
  let t := pyStrip text.data
  if t.isEmpty then createErrorCommand "Empty command" now
  else
    let tl := lowerL t
    let ca := identifyCommandType tl
    { original_text := String.mk t
      command_type := ca.1
      agent := ca.2
      target := extractTarget t ca.1
      parameters := extractParameters t
      error := none
      confidence := calculateConfidence t ca.1
      timestamp := now }

/-- `CommandParser.validate_command` (defined in the source but never
called on any entry path; the three required keys are always present on
a `Command` record, so only the error-tag check remains). -/
def validateCommand (c : Command) : Bool :=
  !(c.command_type = "error")

/-! Memory engine (`core/memory_engine.py`).  A memory entry is the
plain JSON dict built by `add_entry`; `memory_data` is the in-memory
list.  Wall-clock values (`time.time()*1000`, `isoformat()`) are passed
in explicitly.  Disk writes (`save_memory`) only mirror `memory_data`
and are represented by the returned state. -/

/-- JSON values (the subset the embedded operations produce and move). -/
inductive Json where
  | null
  | jbool (b : Bool)
  | jstr (s : String)
  | jarr (elems : List Json)
  | jobj (fields : List (String × Json))

mutual

/-- Decidable equality on `Json` (the nested inductive defeats the
derive handler, so it is spelled out). -/
def Json.deq : (a b : Json) → Decidable (a = b)
  | .null, .null => isTrue rfl
  | .null, .jbool _ => isFalse (fun h => Json.noConfusion h)
  | .null, .jstr _ => isFalse (fun h => Json.noConfusion h)
  | .null, .jarr _ => isFalse (fun h => Json.noConfusion h)
  | .null, .jobj _ => isFalse (fun h => Json.noConfusion h)
  | .jbool _, .null => isFalse (fun h => Json.noConfusion h)
  | .jbool a, .jbool b =>
    match decEq a b with
    | isTrue h => isTrue (h ▸ rfl)
    | isFalse h => isFalse (fun hh => Json.noConfusion hh fun he => h he)
  | .jbool _, .jstr _ => isFalse (fun h => Json.noConfusion h)
  | .jbool _, .jarr _ => isFalse (fun h => Json.noConfusion h)
  | .jbool _, .jobj _ => isFalse (fun h => Json.noConfusion h)
  | .jstr _, .null => isFalse (fun h => Json.noConfusion h)
  | .jstr _, .jbool _ => isFalse (fun h => Json.noConfusion h)
  | .jstr a, .jstr b =>
    match decEq a b with
    | isTrue h => isTrue (h ▸ rfl)
    | isFalse h => isFalse (fun hh => Json.noConfusion hh fun he => h he)
  | .jstr _, .jarr _ => isFalse (fun h => Json.noConfusion h)
  | .jstr _, .jobj _ => isFalse (fun h => Json.noConfusion h)
  | .jarr _, .null => isFalse (fun h => Json.noConfusion h)
  | .jarr _, .jbool _ => isFalse (fun h => Json.noConfusion h)
  | .jarr _, .jstr _ => isFalse (fun h => Json.noConfusion h)
  | .jarr a, .jarr b =>
    match Json.deqList a b with
    | isTrue h => isTrue (h ▸ rfl)
    | isFalse h => isFalse (fun hh => Json.noConfusion hh fun he => h he)
  | .jarr _, .jobj _ => isFalse (fun h => Json.noConfusion h)
  | .jobj _, .null => isFalse (fun h => Json.noConfusion h)
  | .jobj _, .jbool _ => isFalse (fun h => Json.noConfusion h)
  | .jobj _, .jstr _ => isFalse (fun h => Json.noConfusion h)
  | .jobj _, .jarr _ => isFalse (fun h => Json.noConfusion h)
  | .jobj a, .jobj b =>
    match Json.deqFields a b with
    | isTrue h => isTrue (h ▸ rfl)
    | isFalse h => isFalse (fun hh => Json.noConfusion hh fun he => h he)

/-- Decidable equality on JSON arrays. -/
def Json.deqList : (a b : List Json) → Decidable (a = b)
  | [], [] => isTrue rfl
  | [], _ :: _ => isFalse (fun h => List.noConfusion h)
  | _ :: _, [] => isFalse (fun h => List.noConfusion h)
  | x :: xs, y :: ys =>
    match Json.deq x y, Json.deqList xs ys with
    | isTrue h1, isTrue h2 => isTrue (h1 ▸ h2 ▸ rfl)
    | isFalse h1, _ => isFalse (fun hh => List.noConfusion hh fun he _ => h1 he)
    | _, isFalse h2 => isFalse (fun hh => List.noConfusion hh fun _ ht => h2 ht)

/-- Decidable equality on JSON object field lists. -/
def Json.deqFields : (a b : List (String × Json)) → Decidable (a = b)
  | [], [] => isTrue rfl
  | [], _ :: _ => isFalse (fun h => List.noConfusion h)
  | _ :: _, [] => isFalse (fun h => List.noConfusion h)
  | (k, v) :: xs, (k2, v2) :: ys =>
    match decEq k k2, Json.deq v v2, Json.deqFields xs ys with
    | isTrue h1, isTrue h2, isTrue h3 =>
      isTrue (by rw [h1, h2, h3])
    | isFalse h1, _, _ =>
      isFalse (fun hh => List.noConfusion hh fun he _ => h1 (congrArg Prod.fst he))
    | _, isFalse h2, _ =>
      isFalse (fun hh => List.noConfusion hh fun he _ => h2 (congrArg Prod.snd he))
    | _, _, isFalse h3 => isFalse (fun hh => List.noConfusion hh fun _ ht => h3 ht)

end

instance : DecidableEq Json := Json.deq

/-- Python `dict.get(key, default)` on a JSON object (on engine-produced
entries the key set is fixed, so first match is the dict lookup). -/
def jget (j : Json) (key : String) (dflt : Json) : Json :=
  match j with
  | .jobj fields =>
    match fields.find? (fun p => p.1 == key) with
    | some p => p.2
    | none => dflt
  | _ => dflt

/-- String field access with default; entries built by `add_entry`
always hold strings at the keys this is used for. -/
def jgetStr (j : Json) (key : String) (dflt : String) : String :=
  match jget j key (.jstr dflt) with
  | .jstr s => s
  | _ => dflt

/-- Python truthiness of a JSON value (`entry.get('success', False)`
is used as a plain boolean test in `get_statistics`). -/
def jtruthy : Json → Bool
  | .null => false
  | .jbool b => b
  | .jstr s => !(s = "")
  | .jarr l => !l.isEmpty
  | .jobj f => !f.isEmpty

/-- `MemoryEngine.generate_id`: timestamp in ms plus the current length
of `memory_data` (the source's docstring calls the result unique). -/
def generateId (m : List Json) (nowMs : Nat) : String :=
  "mem_" ++ toString nowMs ++ "_" ++ toString m.length

/-- `MemoryEngine.add_entry`: build the entry dict, append, persist;
returns the new state and the new entry's id. -/
def addEntry (m : List Json) (nowMs : Nat) (nowIso : String)
    (command result agent : String) (success : Bool) (metadata : Option Json) :
    List Json × String :=
  let md := match metadata with
    | some j => if jtruthy j then j else .jobj []
    | none => .jobj []
  let entry : Json := .jobj
    [ ("id", .jstr (generateId m nowMs)),
      ("timestamp", .jstr nowIso),
      ("command", .jstr command),
      ("result", .jstr result),
      ("agent", .jstr agent),
      ("success", .jbool success),
      ("metadata", md) ]
  (m ++ [entry], generateId m nowMs)

/-- `MemoryEngine.get_entry`. -/
def getEntry (m : List Json) (entryId : String) : Option Json :=
  m.find? (fun e => jget e "id" .null == .jstr entryId)

/-- Substring match of `search_entries`: the lowercased query occurs in
the lowercased command or result text. -/
def entryMatches (ql : List Char) (e : Json) : Bool :=
  containsSub ql (lowerL (jgetStr e "command" "").data) ||
  containsSub ql (lowerL (jgetStr e "result" "").data)

/-- Loop of `MemoryEngine.search_entries` over the reversed list:
append each match, break once `len(results) >= limit`. -/
def searchGoM (ql : List Char) (limit : Int) : List Json → List Json → List Json
  | [], acc => acc
  | e :: rest, acc =>
    if entryMatches ql e then
      let acc2 := acc ++ [e]
      if limit ≤ (acc2.length : Int) then acc2 else searchGoM ql limit rest acc2
    else searchGoM ql limit rest acc

/-- `MemoryEngine.search_entries`. -/
def searchEntries (m : List Json) (query : String) (limit : Int) : List Json :=
  searchGoM (lowerL query.data) limit m.reverse []

/-- Python slice `l[i:]` (negative index counts from the end, clamped). -/
def pySliceFrom (l : List Json) (i : Int) : List Json :=
  if 0 ≤ i then l.drop i.toNat else l.drop ((l.length : Int) + i).toNat

/-- `MemoryEngine.get_recent_entries`:
`self.memory_data[-limit:] if self.memory_data else []`. -/
def getRecentEntries (m : List Json) (limit : Int) : List Json :=
  if m.isEmpty then [] else pySliceFrom m (-limit)

/-- `MemoryEngine.delete_entry`: remove the first entry with the given
id and persist; `False` when no entry matches. -/
def deleteEntry (m : List Json) (entryId : String) : List Json × Bool :=
  match m with
  | [] => ([], false)
  | e :: rest =>
    if jget e "id" .null == .jstr entryId then (rest, true)
    else
      let r := deleteEntry rest entryId
      (e :: r.1, r.2)

/-- `MemoryEngine.clear_memory`. -/
def clearMemory (_m : List Json) : List Json :=
  []

/-! JSON serialization, the `json` stdlib collaborator used by
`export_memory` / `import_memory` / `save_memory`: a printer mirroring
`json.dump(obj, indent=2, ensure_ascii=False)` and a recursive-descent
reader mirroring `json.load` on the produced documents (numeric
literals are outside the value space the engine ever writes). -/

/-- Whitespace accepted between JSON tokens. -/
def isJsonWs (c : Char) : Bool :=
  c = ' ' || c = '\t' || c = '\n' || c = '\x0d'

/-- Skip inter-token whitespace. -/
def skipJWs (s : List Char) : List Char :=
  s.dropWhile isJsonWs

/-- Hex digit for string escapes (lowercase, as Python emits). -/
def hexDigit (n : Nat) : Char :=
  if n < 10 then Char.ofNat ('0'.toNat + n) else Char.ofNat ('a'.toNat + (n - 10))

/-- Value of a hex digit character. -/
def hexVal (c : Char) : Option Nat :=
  if '0' ≤ c ∧ c ≤ '9' then some (c.toNat - '0'.toNat)
  else if 'a' ≤ c ∧ c ≤ 'f' then some (c.toNat - 'a'.toNat + 10)
  else if 'A' ≤ c ∧ c ≤ 'F' then some (c.toNat - 'A'.toNat + 10)
  else none

/-- JSON string escaping of one character, as `json.dumps` with
`ensure_ascii=False` emits it. -/
def escapeChar (c : Char) : List Char :=
  if c = '"' then ['\\', '"']
  else if c = '\\' then ['\\', '\\']
  else if c = '\x08' then ['\\', 'b']
  else if c = '\x0c' then ['\\', 'f']
  else if c = '\n' then ['\\', 'n']
  else if c = '\x0d' then ['\\', 'r']
  else if c = '\t' then ['\\', 't']
  else if c.toNat < 32 then
    ['\\', 'u', '0', '0', hexDigit (c.toNat / 16), hexDigit (c.toNat % 16)]
  else [c]

/-- Escape a whole string body. -/
def escStr (s : List Char) : List Char :=
  s.flatMap escapeChar

/-- Indentation prefix at nesting depth `d` (`indent=2`). -/
def jsIndent (d : Nat) : List Char :=
  List.replicate (2 * d) ' '

mutual

/-- Serialize a value at nesting depth `d`, matching
`json.dumps(x, indent=2, ensure_ascii=False)`. -/
def dumpsVal (d : Nat) : Json → List Char
  | .null => "null".data
  | .jbool b => if b then "true".data else "false".data
  | .jstr s => '"' :: (escStr s.data ++ ['"'])
  | .jarr [] => "[]".data
  | .jarr (x :: xs) => '[' :: dumpArrItems d (x :: xs)
  | .jobj [] => "{}".data
  | .jobj (kv :: fs) => '{' :: dumpObjFields d (kv :: fs)

/-- Serialize the items of a non-empty array, each on its own indented
line, including the closing bracket. -/
def dumpArrItems (d : Nat) : List Json → List Char
  | [] => [']']
  | [x] => '\n' :: (jsIndent (d + 1) ++ dumpsVal (d + 1) x ++ '\n' :: (jsIndent d ++ [']']))
  | x :: xs => '\n' :: (jsIndent (d + 1) ++ dumpsVal (d + 1) x ++ ',' :: dumpArrItems d xs)

/-- Serialize the fields of a non-empty object, `"key": value` lines,
including the closing brace. -/
def dumpObjFields (d : Nat) : List (String × Json) → List Char
  | [] => ['}']
  | [kv] => '\n' :: (jsIndent (d + 1) ++ ('"' :: (escStr kv.1.data ++ '"' :: ':' :: ' ' ::
      (dumpsVal (d + 1) kv.2 ++ '\n' :: (jsIndent d ++ ['}'])))))
  | kv :: fs => '\n' :: (jsIndent (d + 1) ++ ('"' :: (escStr kv.1.data ++ '"' :: ':' :: ' ' ::
      (dumpsVal (d + 1) kv.2 ++ ',' :: dumpObjFields d fs))))

end

/-- Decode a simple (non-`u`) escape letter. -/
def unescapeChar (e : Char) : Option Char :=
  if e = '"' then some '"'
  else if e = '\\' then some '\\'
  else if e = '/' then some '/'
  else if e = 'b' then some '\x08'
  else if e = 'f' then some '\x0c'
  else if e = 'n' then some '\n'
  else if e = 'r' then some '\x0d'
  else if e = 't' then some '\t'
  else none

/-- Read a string body after the opening quote, undoing the escapes;
bare control characters are rejected (`json.loads` strict mode). -/
def parseStrBody : List Char → Option (List Char × List Char)
  | [] => none
  | c :: rest =>
    if c = '"' then some ([], rest)
    else if c = '\\' then
      match rest with
      | [] => none
      | e :: r =>
        if e = 'u' then
          match r with
          | h1 :: h2 :: h3 :: h4 :: r2 =>
            match hexVal h1, hexVal h2, hexVal h3, hexVal h4 with
            | some a, some b, some hc, some d =>
              (parseStrBody r2).map
                (fun p => (Char.ofNat (((a * 16 + b) * 16 + hc) * 16 + d) :: p.1, p.2))
            | _, _, _, _ => none
          | _ => none
        else
          match unescapeChar e with
          | some u => (parseStrBody r).map (fun p => (u :: p.1, p.2))
          | none => none
    else if c.toNat < 32 then none
    else (parseStrBody rest).map (fun p => (c :: p.1, p.2))

mutual

/-- Read one JSON value (`fuel` bounds nesting; callers pass enough). -/
def parseVal : Nat → List Char → Option (Json × List Char)
  | 0, _ => none
  | fuel + 1, s =>
    match skipJWs s with
    | 'n' :: 'u' :: 'l' :: 'l' :: rest => some (.null, rest)
    | 't' :: 'r' :: 'u' :: 'e' :: rest => some (.jbool true, rest)
    | 'f' :: 'a' :: 'l' :: 's' :: 'e' :: rest => some (.jbool false, rest)
    | '"' :: rest => (parseStrBody rest).map (fun p => (.jstr (String.mk p.1), p.2))
    | '[' :: rest =>
      (match skipJWs rest with
       | [] => none
       | c :: r2 =>
         if c = ']' then some (.jarr [], r2)
         else (parseItems fuel rest).map (fun p => (.jarr p.1, p.2)))
    | '{' :: rest =>
      (match skipJWs rest with
       | [] => none
       | c :: r2 =>
         if c = '}' then some (.jobj [], r2)
         else (parseFields fuel rest).map (fun p => (.jobj p.1, p.2)))
    | _ => none

/-- Read the comma-separated items of a non-empty array, up to and
including the closing bracket. -/
def parseItems : Nat → List Char → Option (List Json × List Char)
  | 0, _ => none
  | fuel + 1, s =>
    (parseVal fuel s).bind fun pv =>
      match skipJWs pv.2 with
      | ',' :: r2 => (parseItems fuel r2).map (fun p => (pv.1 :: p.1, p.2))
      | ']' :: r2 => some ([pv.1], r2)
      | _ => none

/-- Read the fields of a non-empty object, up to and including the
closing brace. -/
def parseFields : Nat → List Char → Option (List (String × Json) × List Char)
  | 0, _ => none
  | fuel + 1, s =>
    match skipJWs s with
    | '"' :: rest =>
      (parseStrBody rest).bind fun pk =>
        match skipJWs pk.2 with
        | ':' :: r2 =>
          (parseVal fuel r2).bind fun pv =>
            match skipJWs pv.2 with
            | ',' :: r4 => (parseFields fuel r4).map (fun p => ((String.mk pk.1, pv.1) :: p.1, p.2))
            | '}' :: r4 => some ([(String.mk pk.1, pv.1)], r4)
            | _ => none
        | _ => none
    | _ => none

end

mutual

/-- Nesting weight of a value: an upper bound on the reader fuel it
needs (strings and scalars weigh one; containers add one per level and
per element). -/
def jweight : Json → Nat
  | .null => 1
  | .jbool _ => 1
  | .jstr _ => 1
  | .jarr l => 1 + lweight l
  | .jobj fs => 1 + fweight fs

/-- Weight of an array item list. -/
def lweight : List Json → Nat
  | [] => 1
  | x :: xs => 1 + jweight x + lweight xs

/-- Weight of an object field list. -/
def fweight : List (String × Json) → Nat
  | [] => 1
  | kv :: fs => 1 + jweight kv.2 + fweight fs

end

/-- `json.dumps(x, indent=2, ensure_ascii=False)` as a string. -/
def dumps (j : Json) : String :=
  String.mk (dumpsVal 0 j)

/-- `json.loads` on the documents the engine writes; the fuel
`length + 1` dominates any nesting the input can encode. -/
def loads (text : String) : Option Json :=
  match parseVal (text.data.length + 1) text.data with
  | some p => if (skipJWs p.2).isEmpty then some p.1 else none
  | none => none

/-- `MemoryEngine.export_memory`: the file receives the plain JSON dump
of `memory_data` — the encryption service is never applied on this path
(contrast `save_memory`). -/
def exportMemory (m : List Json) : String :=
  dumps (.jarr m)

/-- `MemoryEngine.save_memory`'s on-disk content, for contrast with
`export_memory`: the cipher (an opaque collaborator) is applied to the
serialized log. -/
def saveMemoryContent (encrypt : String → String) (m : List Json) : String :=
  encrypt (dumps (.jarr m))

/-- `MemoryEngine.import_memory`: parse the file text; only when it
holds a list, extend `memory_data` with it and report `True` — a parse
failure lands in the `except` branch, a non-list in the final
`return False`. -/
def importMemory (m : List Json) (fileText : String) : List Json × Bool :=
  match loads fileText with
  | some (.jarr l) => (m ++ l, true)
  | some _ => (m, false)
  | none => (m, false)

/-- Statistics record returned by `MemoryEngine.get_statistics`. -/
structure Stats where
  total_entries : Nat
  successful_entries : Nat
  failed_entries : Nat
  success_rate : ℚ
  agents : List (String × Nat)
  oldest_entry : Option Json
  newest_entry : Option Json
deriving DecidableEq

/-- Increment a per-agent counter, preserving dict insertion order. -/
def bumpCount : List (String × Nat) → String → List (String × Nat)
  | [], k => [(k, 1)]
  | (a, n) :: rest, k =>
    if a = k then (a, n + 1) :: rest else (a, n) :: bumpCount rest k

/-- `MemoryEngine.get_statistics`: computed on demand; the success rate
is guarded by `total_entries > 0`, so the division is never reached on
an empty log. -/
def getStatistics (m : List Json) : Stats :=
  let total := m.length
  let succ := (m.filter (fun e => jtruthy (jget e "success" (.jbool false)))).length
  { total_entries := total
    successful_entries := succ
    failed_entries := total - succ
    success_rate := if total > 0 then (succ : ℚ) / (total : ℚ) * 100 else 0
    agents := m.foldl (fun acc e => bumpCount acc (jgetStr e "agent" "unknown")) []
    oldest_entry := m.head?.map (fun e => jget e "timestamp" .null)
    newest_entry := m.getLast?.map (fun e => jget e "timestamp" .null) }

/-! Orchestrator (`agents/orchestrator.py`).  Handlers and plugins are
the discovered maps; a handler's `execute` (or a plugin's `run`) either
returns a string or raises, which the dispatch boundary converts. -/

/-- Result of running a capability body: normal return or exception. -/
inductive ExecR where
  | ok (s : String)
  | exn (msg : String)
deriving DecidableEq, Repr

/-- A built-in capability handler (`execute(target, parameters)`). -/
structure AgentH where
  execute : String → Params → ExecR

/-- A discovered plugin (`run(target)`). -/
structure PluginH where
  run : String → ExecR

/-- Registry state: `self.agents` and `self.plugins` as ordered maps. -/
structure Orch where
  agents : List (String × AgentH)
  plugins : List (String × PluginH)

/-- Python `name in dict` plus `dict[name]` on the agent map. -/
def lookupAgent (l : List (String × AgentH)) (name : String) : Option AgentH :=
  (l.find? (fun p => p.1 == name)).map Prod.snd

/-- `Orchestrator._plugin_matches`. -/
def pluginMatches (pluginName commandType target : String) : Bool :=
  let tl := lowerL target.data
  let pl := lowerL pluginName.data
  containsSub pl tl || containsSub tl pl || containsSub commandType.data pl

/-- The dispatch boundary's `except` conversion: a raised exception
becomes the string `"❌ Execution error: ..."`. -/
def execBoundary (r : ExecR) : String :=
  match r with
  | .ok s => s
  | .exn e => "❌ Execution error: " ++ e

/-- `Orchestrator.execute_command`: agent-name match first, then the
first matching plugin, then the `general` fallback, else the
no-handler string; every exception is caught at this boundary. -/
def executeCommand (o : Orch) (c : Command) : String :=
  match lookupAgent o.agents c.agent with
  | some a => execBoundary (a.execute c.target c.parameters)
  | none =>
    match o.plugins.find? (fun p => pluginMatches p.1 c.command_type c.target) with
    | some p => execBoundary (p.2.run c.target)
    | none =>
      match lookupAgent o.agents "general" with
      | some g => execBoundary (g.execute c.target c.parameters)
      | none => "❌ No agent or plugin found to handle: " ++ c.command_type

/-! Voice/text pipeline (`core/voice_pipeline.py`).  `_handle_transcription`
is the shared text-dispatch path; `process_text_command` delegates to it.
The outcome record makes the dispatch attempts, the appended log entries
and the queued UI callbacks observable. -/

/-- A callback queued for the UI after a handled command. -/
structure Callback where
  ctype : String
  text : String
  result : String
  command : Command
deriving DecidableEq, Repr

/-- Observable outcome of one pass through the shared text path. -/
structure PipeOut where
  mem : List Json
  dispatched : List Command
  callbacks : List Callback
  entryId : String

/-- `VoicePipeline._handle_transcription`: parse, dispatch (always),
log with `success=True`, queue a callback.  In this model nothing in the
body raises, so the source's `except` branch is unreachable. -/
def handleTranscription (o : Orch) (mem : List Json) (text : String)
    (nowMs : Nat) (nowIso : String) : PipeOut :=
  let command := parseCommand text nowIso
  let result := executeCommand o command
  let am := addEntry mem nowMs nowIso text result command.agent true none
  { mem := am.1
    dispatched := [command]
    callbacks := [{ ctype := "voice_command", text := text, result := result, command := command }]
    entryId := am.2 }

/-- `VoicePipeline.process_text_command`: the synchronous text entry
point; it performs exactly `_handle_transcription`. -/
def processTextCommand (o : Orch) (mem : List Json) (text : String)
    (nowMs : Nat) (nowIso : String) : PipeOut :=
  handleTranscription o mem text nowMs nowIso

/-! Interleaved audit-log operation sequences, for the id-uniqueness
invariant: each `add` carries the wall-clock instant it happens at. -/

/-- One audit-log operation. -/
inductive MemOp where
  | add (nowMs : Nat) (nowIso : String) (command result agent : String) (success : Bool)
  | del (entryId : String)
  | clear
deriving DecidableEq, Repr

/-- Run a sequence of operations from a state; returns the final state
and the ids handed out by the `add_entry` calls, in order. -/
def runOps : List Json → List MemOp → List Json × List String
  | m, [] => (m, [])
  | m, .add ms iso c r a s :: rest =>
    let am := addEntry m ms iso c r a s none
    let rs := runOps am.1 rest
    (rs.1, am.2 :: rs.2)
  | m, .del i :: rest => runOps (deleteEntry m i).1 rest
  | m, .clear :: rest => runOps (clearMemory m) rest

/-! Shared concrete fixtures for the claim theorems. -/

/-- A stub built-in handler that succeeds, echoing the spec scenario. -/
def stubSecops : AgentH :=
  ⟨fun _ _ => .ok "OK:scan-done"⟩

/-- A stub built-in handler whose `execute` raises. -/
def boomAgent : AgentH :=
  ⟨fun _ _ => .exn "boom"⟩

/-- A stub plugin whose `run` succeeds. -/
def stubPlugin : PluginH :=
  ⟨fun t => .ok ("ran:" ++ t)⟩

/-- A sample audit entry whose command text contains "Foo". -/
def fooEntry : Json :=
  Json.jobj [("id", .jstr "x1"), ("timestamp", .jstr "t"), ("command", .jstr "Foo cmd"),
    ("result", .jstr "res"), ("agent", .jstr "ag"), ("success", .jbool true), ("metadata", .jobj [])]

/-- Same-millisecond burst with an interleaved delete: two adds at
instant 7, delete of the first id, then another add at instant 7. -/
def burstTrace : List MemOp :=
  [.add 7 "i" "a" "r" "x" true, .add 7 "i" "b" "r" "x" true,
   .del "mem_7_0", .add 7 "i" "c" "r" "x" true]

/-! Lemmas about the JSON collaborator, towards the export/import
round trip. -/

theorem skipJWs_cons_of_not_ws {c : Char} (l : List Char) (h : isJsonWs c = false) :
    skipJWs (c :: l) = c :: l := by
  simp [skipJWs, List.dropWhile_cons, h]

theorem skipJWs_cons_of_ws {c : Char} (l : List Char) (h : isJsonWs c = true) :
    skipJWs (c :: l) = skipJWs l := by
  simp [skipJWs, List.dropWhile_cons, h]

theorem skipJWs_space (l : List Char) : skipJWs (' ' :: l) = skipJWs l :=
  skipJWs_cons_of_ws l (by decide)

theorem skipJWs_newline (l : List Char) : skipJWs ('\n' :: l) = skipJWs l :=
  skipJWs_cons_of_ws l (by decide)

theorem skipJWs_replicate (k : Nat) (l : List Char) :
    skipJWs (List.replicate k ' ' ++ l) = skipJWs l := by
  induction k with
  | zero => simp
  | succ n ih => simpa [List.replicate_succ, skipJWs_space] using ih

theorem skipJWs_indent (d : Nat) (l : List Char) :
    skipJWs (jsIndent d ++ l) = skipJWs l := by
  unfold jsIndent
  exact skipJWs_replicate (2 * d) l

theorem skipJWs_idem (s : List Char) : skipJWs (skipJWs s) = skipJWs s := by
  induction s with
  | nil => rfl
  | cons c t ih =>
    by_cases h : isJsonWs c
    · rw [skipJWs_cons_of_ws t h]; exact ih
    · rw [skipJWs_cons_of_not_ws t (by simpa using h),
        skipJWs_cons_of_not_ws t (by simpa using h)]

theorem parseVal_skipJWs (fuel : Nat) (s : List Char) :
    parseVal fuel (skipJWs s) = parseVal fuel s := by
  cases fuel with
  | zero => rfl
  | succ f => simp only [parseVal, skipJWs_idem]

/-- Every serialized value starts with a non-whitespace character that
is not a closing bracket. -/
theorem dumpsVal_head (d : Nat) (j : Json) :
    ∃ c cs, dumpsVal d j = c :: cs ∧ isJsonWs c = false ∧ c ≠ ']' ∧ c ≠ '}' := by
  cases j with
  | null => exact ⟨'n', _, rfl, by decide, by decide, by decide⟩
  | jbool b =>
    cases b with
    | false => exact ⟨'f', _, rfl, by decide, by decide, by decide⟩
    | true => exact ⟨'t', _, rfl, by decide, by decide, by decide⟩
  | jstr s => exact ⟨'"', _, rfl, by decide, by decide, by decide⟩
  | jarr l =>
    cases l with
    | nil => exact ⟨'[', _, rfl, by decide, by decide, by decide⟩
    | cons x xs => exact ⟨'[', _, rfl, by decide, by decide, by decide⟩
  | jobj fs =>
    cases fs with
    | nil => exact ⟨'{', _, rfl, by decide, by decide, by decide⟩
    | cons kv rest => exact ⟨'{', _, rfl, by decide, by decide, by decide⟩

theorem hexVal_hexDigit : ∀ n < 16, hexVal (hexDigit n) = some n := by
  decide

/-- Unescaping inverts escaping: the string reader recovers each
escaped source string exactly, leaving the trailing input. -/
theorem parseStrBody_escStr (s : List Char) :
    ∀ rest : List Char, parseStrBody (escStr s ++ '"' :: rest) = some (s, rest) := by
  induction s with
  | nil =>
    intro rest
    unfold escStr parseStrBody
    simp
  | cons c cs ih =>
    intro rest
    have hesc : escStr (c :: cs) ++ '"' :: rest
        = escapeChar c ++ (escStr cs ++ '"' :: rest) := by
      simp [escStr]
    rw [hesc]
    unfold escapeChar
    split_ifs with h1 h2 h3 h4 h5 h6 h7 h8
    · subst h1; unfold parseStrBody; simp [unescapeChar, ih rest]
    · subst h2; unfold parseStrBody; simp [unescapeChar, ih rest]
    · subst h3; unfold parseStrBody; simp [unescapeChar, ih rest]
    · subst h4; unfold parseStrBody; simp [unescapeChar, ih rest]
    · subst h5; unfold parseStrBody; simp [unescapeChar, ih rest]
    · subst h6; unfold parseStrBody; simp [unescapeChar, ih rest]
    · subst h7; unfold parseStrBody; simp [unescapeChar, ih rest]
    · -- the `\u00XX` escape for the remaining control characters
      simp only [List.cons_append, List.nil_append]
      unfold parseStrBody
      simp only [reduceIte, hexVal_hexDigit _ (by omega : c.toNat / 16 < 16),
        hexVal_hexDigit _ (by omega : c.toNat % 16 < 16)]
      have hv : hexVal '0' = some 0 := by decide
      simp only [hv, ih rest, Option.map_some]
      rw [if_neg (by decide : ¬ ('\\' = '"'))]
      have hcode : c.toNat / 16 * 16 + c.toNat % 16 = c.toNat := by
        omega
      simp only [Nat.zero_mul, Nat.zero_add, Nat.add_mul]
      simp [hcode, Char.ofNat_toNat]
    · -- plain character, printed raw
      simp only [List.cons_append, List.nil_append]
      unfold parseStrBody
      simp [if_neg h1, if_neg h2, if_neg (by omega : ¬ c.toNat < 32), ih rest]

theorem skipJWs_quote (l : List Char) : skipJWs ('"' :: l) = '"' :: l :=
  skipJWs_cons_of_not_ws l (by decide)

theorem skipJWs_colon (l : List Char) : skipJWs (':' :: l) = ':' :: l :=
  skipJWs_cons_of_not_ws l (by decide)

theorem skipJWs_comma (l : List Char) : skipJWs (',' :: l) = ',' :: l :=
  skipJWs_cons_of_not_ws l (by decide)

theorem skipJWs_rbracket (l : List Char) : skipJWs (']' :: l) = ']' :: l :=
  skipJWs_cons_of_not_ws l (by decide)

theorem skipJWs_rbrace (l : List Char) : skipJWs ('}' :: l) = '}' :: l :=
  skipJWs_cons_of_not_ws l (by decide)

theorem skipJWs_lbracket (l : List Char) : skipJWs ('[' :: l) = '[' :: l :=
  skipJWs_cons_of_not_ws l (by decide)

theorem skipJWs_lbrace (l : List Char) : skipJWs ('{' :: l) = '{' :: l :=
  skipJWs_cons_of_not_ws l (by decide)

/-- After the opening bracket of a serialized non-empty array, skipping
whitespace lands exactly on the first item's serialization. -/
theorem skipJWs_dumpArrItems (d : Nat) (x : Json) (xs : List Json) (rest : List Char) :
    ∃ z, skipJWs (dumpArrItems d (x :: xs) ++ rest) = dumpsVal (d + 1) x ++ z := by
  obtain ⟨c, cs, hd, hws, _, _⟩ := dumpsVal_head (d + 1) x
  cases xs with
  | nil =>
    refine ⟨'\n' :: (jsIndent d ++ (']' :: rest)), ?_⟩
    have hs : dumpArrItems d [x] ++ rest
        = '\n' :: (List.replicate (2 * (d + 1)) ' '
          ++ (dumpsVal (d + 1) x ++ ('\n' :: (jsIndent d ++ (']' :: rest))))) := by
      simp [dumpArrItems, jsIndent]
    rw [hs, skipJWs_newline, skipJWs_replicate, hd, List.cons_append,
      skipJWs_cons_of_not_ws _ hws, ← List.cons_append, ← hd]
  | cons y ys =>
    refine ⟨',' :: (dumpArrItems d (y :: ys) ++ rest), ?_⟩
    have hs : dumpArrItems d (x :: y :: ys) ++ rest
        = '\n' :: (List.replicate (2 * (d + 1)) ' '
          ++ (dumpsVal (d + 1) x ++ (',' :: (dumpArrItems d (y :: ys) ++ rest)))) := by
      simp [dumpArrItems, jsIndent]
    rw [hs, skipJWs_newline, skipJWs_replicate, hd, List.cons_append,
      skipJWs_cons_of_not_ws _ hws, ← List.cons_append, ← hd]

/-- After the opening brace of a serialized non-empty object, skipping
whitespace lands on the first key's opening quote. -/
theorem skipJWs_dumpObjFields_head (d : Nat) (kv : String × Json)
    (fs : List (String × Json)) (rest : List Char) :
    ∃ z, skipJWs (dumpObjFields d (kv :: fs) ++ rest) = '"' :: z := by
  cases fs with
  | nil =>
    refine ⟨escStr kv.1.data ++ '"' :: ':' :: ' '
      :: (dumpsVal (d + 1) kv.2 ++ ('\n' :: (jsIndent d ++ ('}' :: rest)))), ?_⟩
    have hs : dumpObjFields d [kv] ++ rest
        = '\n' :: (List.replicate (2 * (d + 1)) ' '
          ++ ('"' :: (escStr kv.1.data ++ '"' :: ':' :: ' '
            :: (dumpsVal (d + 1) kv.2 ++ ('\n' :: (jsIndent d ++ ('}' :: rest))))))) := by
      simp [dumpObjFields, jsIndent]
    rw [hs, skipJWs_newline, skipJWs_replicate, skipJWs_quote]
  | cons kv2 fs2 =>
    refine ⟨escStr kv.1.data ++ '"' :: ':' :: ' '
      :: (dumpsVal (d + 1) kv.2 ++ (',' :: (dumpObjFields d (kv2 :: fs2) ++ rest))), ?_⟩
    have hs : dumpObjFields d (kv :: kv2 :: fs2) ++ rest
        = '\n' :: (List.replicate (2 * (d + 1)) ' '
          ++ ('"' :: (escStr kv.1.data ++ '"' :: ':' :: ' '
            :: (dumpsVal (d + 1) kv.2 ++ (',' :: (dumpObjFields d (kv2 :: fs2) ++ rest)))))) := by
      simp [dumpObjFields, jsIndent]
    rw [hs, skipJWs_newline, skipJWs_replicate, skipJWs_quote]

/-- A serialized value absorbs a preceding newline-plus-indent
(the reader skips inter-token whitespace first). -/
theorem parseVal_nl_indent (fuel k : Nat) (d : Nat) (j : Json) (t : List Char) :
    parseVal fuel ('\n' :: (List.replicate k ' ' ++ (dumpsVal d j ++ t)))
      = parseVal fuel (dumpsVal d j ++ t) := by
  rw [← parseVal_skipJWs fuel ('\n' :: (List.replicate k ' ' ++ (dumpsVal d j ++ t)))]
  rw [skipJWs_newline, skipJWs_replicate]
  obtain ⟨c, cs, hd, hws, _, _⟩ := dumpsVal_head d j
  rw [hd, List.cons_append, skipJWs_cons_of_not_ws _ hws, ← List.cons_append, ← hd]

/-- A serialized value absorbs a preceding single space (after an
object key's colon). -/
theorem parseVal_space (fuel : Nat) (d : Nat) (j : Json) (t : List Char) :
    parseVal fuel (' ' :: (dumpsVal d j ++ t)) = parseVal fuel (dumpsVal d j ++ t) := by
  rw [← parseVal_skipJWs fuel (' ' :: (dumpsVal d j ++ t))]
  rw [skipJWs_space]
  obtain ⟨c, cs, hd, hws, _, _⟩ := dumpsVal_head d j
  rw [hd, List.cons_append, skipJWs_cons_of_not_ws _ hws, ← List.cons_append, ← hd]

theorem stringMk_data (s : String) : String.mk s.data = s :=
  rfl

/-- Reading inverts printing, for values, array items and object
fields, given fuel above the value's nesting weight. -/
theorem parse_dumps (fuel : Nat) :
    (∀ (j : Json) (d : Nat) (rest : List Char), jweight j < fuel →
      parseVal fuel (dumpsVal d j ++ rest) = some (j, rest)) ∧
    (∀ (l : List Json) (d : Nat) (rest : List Char), l ≠ [] → lweight l < fuel →
      parseItems fuel (dumpArrItems d l ++ rest) = some (l, rest)) ∧
    (∀ (fs : List (String × Json)) (d : Nat) (rest : List Char), fs ≠ [] → fweight fs < fuel →
      parseFields fuel (dumpObjFields d fs ++ rest) = some (fs, rest)) := by
  induction fuel with
  | zero =>
    exact ⟨fun j d rest h => absurd h (Nat.not_lt_zero _),
      fun l d rest hne h => absurd h (Nat.not_lt_zero _),
      fun fs d rest hne h => absurd h (Nat.not_lt_zero _)⟩
  | succ fuel ih =>
    obtain ⟨ihV, ihI, ihF⟩ := ih
    refine ⟨?_, ?_, ?_⟩
    · intro j d rest hw
      cases j with
      | null =>
        have hs : dumpsVal d Json.null ++ rest = 'n' :: 'u' :: 'l' :: 'l' :: rest := rfl
        unfold parseVal
        rw [hs, skipJWs_cons_of_not_ws _ (by decide)]
        rfl
      | jbool b =>
        cases b with
        | false =>
          have hs : dumpsVal d (Json.jbool false) ++ rest
              = 'f' :: 'a' :: 'l' :: 's' :: 'e' :: rest := rfl
          unfold parseVal
          rw [hs, skipJWs_cons_of_not_ws _ (by decide)]
          rfl
        | true =>
          have hs : dumpsVal d (Json.jbool true) ++ rest
              = 't' :: 'r' :: 'u' :: 'e' :: rest := rfl
          unfold parseVal
          rw [hs, skipJWs_cons_of_not_ws _ (by decide)]
          rfl
      | jstr s =>
        have hs : dumpsVal d (Json.jstr s) ++ rest
            = '"' :: (escStr s.data ++ '"' :: rest) := by
          simp [dumpsVal]
        unfold parseVal
        rw [hs]
        simp only [skipJWs_quote]
        simp [parseStrBody_escStr s.data rest, stringMk_data]
      | jarr l =>
        cases l with
        | nil =>
          have hs : dumpsVal d (Json.jarr []) ++ rest = '[' :: ']' :: rest := rfl
          unfold parseVal
          rw [hs]
          rfl
        | cons x xs =>
          have hs : dumpsVal d (Json.jarr (x :: xs)) ++ rest
              = '[' :: (dumpArrItems d (x :: xs) ++ rest) := by
            simp [dumpsVal]
          unfold parseVal
          rw [hs]
          obtain ⟨c, cs, hd, hws, hne1, hne2⟩ := dumpsVal_head (d + 1) x
          obtain ⟨z, hz⟩ := skipJWs_dumpArrItems d x xs rest
          have hitems : parseItems fuel (dumpArrItems d (x :: xs) ++ rest)
              = some (x :: xs, rest) := by
            refine ihI (x :: xs) d rest (by simp) ?_
            simp only [jweight] at hw
            omega
          simp only [skipJWs_lbracket, hz, hd, List.cons_append]
          simp [if_neg hne1, hitems]
      | jobj fs =>
        cases fs with
        | nil =>
          have hs : dumpsVal d (Json.jobj []) ++ rest = '{' :: '}' :: rest := rfl
          unfold parseVal
          rw [hs]
          rfl
        | cons kv fs2 =>
          have hs : dumpsVal d (Json.jobj (kv :: fs2)) ++ rest
              = '{' :: (dumpObjFields d (kv :: fs2) ++ rest) := by
            simp [dumpsVal]
          unfold parseVal
          rw [hs]
          obtain ⟨z, hz⟩ := skipJWs_dumpObjFields_head d kv fs2 rest
          have hfields : parseFields fuel (dumpObjFields d (kv :: fs2) ++ rest)
              = some (kv :: fs2, rest) := by
            refine ihF (kv :: fs2) d rest (by simp) ?_
            simp only [jweight] at hw
            omega
          simp only [skipJWs_lbrace, hz]
          simp [hfields]
    · intro l d rest hne hw
      cases l with
      | nil => exact absurd rfl hne
      | cons x xs =>
        have hwx : jweight x < fuel := by
          simp only [lweight] at hw
          omega
        cases xs with
        | nil =>
          have hs : dumpArrItems d [x] ++ rest
              = '\n' :: (List.replicate (2 * (d + 1)) ' '
                ++ (dumpsVal (d + 1) x ++ ('\n' :: (jsIndent d ++ (']' :: rest))))) := by
            simp [dumpArrItems, jsIndent]
          unfold parseItems
          rw [hs, parseVal_nl_indent, ihV x (d + 1) _ hwx]
          simp [skipJWs_newline, skipJWs_indent, skipJWs_rbracket]
        | cons y ys =>
          have hwxs : lweight (y :: ys) < fuel := by
            simp only [lweight] at hw ⊢
            omega
          have hs : dumpArrItems d (x :: y :: ys) ++ rest
              = '\n' :: (List.replicate (2 * (d + 1)) ' '
                ++ (dumpsVal (d + 1) x ++ (',' :: (dumpArrItems d (y :: ys) ++ rest)))) := by
            simp [dumpArrItems, jsIndent]
          unfold parseItems
          rw [hs, parseVal_nl_indent, ihV x (d + 1) _ hwx]
          have h2 := ihI (y :: ys) d rest (by simp) hwxs
          simp [skipJWs_comma, h2]
    · intro fs d rest hne hw
      cases fs with
      | nil => exact absurd rfl hne
      | cons kv fs2 =>
        have hwv : jweight kv.2 < fuel := by
          simp only [fweight] at hw
          omega
        cases fs2 with
        | nil =>
          have hs : dumpObjFields d [kv] ++ rest
              = '\n' :: (List.replicate (2 * (d + 1)) ' '
                ++ ('"' :: (escStr kv.1.data ++ '"' :: ':' :: ' '
                  :: (dumpsVal (d + 1) kv.2 ++ ('\n' :: (jsIndent d ++ ('}' :: rest))))))) := by
            simp [dumpObjFields, jsIndent]
          unfold parseFields
          rw [hs, skipJWs_newline, skipJWs_replicate, skipJWs_quote]
          have hv := ihV kv.2 (d + 1) ('\n' :: (jsIndent d ++ ('}' :: rest))) hwv
          simp [parseStrBody_escStr, skipJWs_colon, parseVal_space, hv,
            skipJWs_newline, skipJWs_indent, skipJWs_rbrace, stringMk_data]
        | cons kv2 fs3 =>
          have hwfs : fweight (kv2 :: fs3) < fuel := by
            simp only [fweight] at hw ⊢
            omega
          have hs : dumpObjFields d (kv :: kv2 :: fs3) ++ rest
              = '\n' :: (List.replicate (2 * (d + 1)) ' '
                ++ ('"' :: (escStr kv.1.data ++ '"' :: ':' :: ' '
                  :: (dumpsVal (d + 1) kv.2 ++ (',' :: (dumpObjFields d (kv2 :: fs3) ++ rest)))))) := by
            simp [dumpObjFields, jsIndent]
          unfold parseFields
          rw [hs, skipJWs_newline, skipJWs_replicate, skipJWs_quote]
          have hv := ihV kv.2 (d + 1) (',' :: (dumpObjFields d (kv2 :: fs3) ++ rest)) hwv
          have h2 := ihF (kv2 :: fs3) d rest (by simp) hwfs
          simp [parseStrBody_escStr, skipJWs_colon, parseVal_space, hv,
            skipJWs_comma, h2, stringMk_data]

/-- The nesting weight of a value never exceeds its serialized length,
so `loads`' fuel of `length + 1` always suffices. -/
theorem weight_le_dumps_len :
    ∀ n : Nat,
      (∀ j : Json, sizeOf j ≤ n → ∀ d : Nat, jweight j ≤ (dumpsVal d j).length) ∧
      (∀ l : List Json, sizeOf l ≤ n → ∀ d : Nat, lweight l ≤ (dumpArrItems d l).length) ∧
      (∀ fs : List (String × Json), sizeOf fs ≤ n → ∀ d : Nat,
        fweight fs ≤ (dumpObjFields d fs).length) := by
  intro n
  induction n using Nat.strong_induction_on with
  | _ n ih =>
    refine ⟨?_, ?_, ?_⟩
    · intro j hsz d
      cases j with
      | null => simp [jweight, dumpsVal]
      | jbool b => cases b <;> simp [jweight, dumpsVal]
      | jstr s => simp [jweight, dumpsVal]
      | jarr l =>
        cases l with
        | nil => simp [jweight, lweight, dumpsVal]
        | cons x xs =>
          have hlt : sizeOf (x :: xs) < n := by
            simp only [Json.jarr.sizeOf_spec] at hsz
            omega
          have hl := ((ih _ hlt).2.1) (x :: xs) le_rfl d
          simp only [jweight, dumpsVal, List.length_cons]
          omega
      | jobj fs =>
        cases fs with
        | nil => simp [jweight, fweight, dumpsVal]
        | cons kv fs2 =>
          have hlt : sizeOf (kv :: fs2) < n := by
            simp only [Json.jobj.sizeOf_spec] at hsz
            omega
          have hl := ((ih _ hlt).2.2) (kv :: fs2) le_rfl d
          simp only [jweight, dumpsVal, List.length_cons]
          omega
    · intro l hsz d
      cases l with
      | nil => simp [lweight, dumpArrItems]
      | cons x xs =>
        have hx : sizeOf x < n := by
          simp only [List.cons.sizeOf_spec] at hsz
          omega
        have hjx := ((ih _ hx).1) x le_rfl (d + 1)
        cases xs with
        | nil =>
          simp only [lweight, dumpArrItems, jsIndent, List.length_cons, List.length_append,
            List.length_replicate, List.length_nil]
          omega
        | cons y ys =>
          have hys : sizeOf (y :: ys) < n := by
            simp only [List.cons.sizeOf_spec] at hsz ⊢
            omega
          have hl := ((ih _ hys).2.1) (y :: ys) le_rfl d
          simp only [lweight, dumpArrItems, jsIndent, List.length_cons, List.length_append,
            List.length_replicate] at *
          omega
    · intro fs hsz d
      cases fs with
      | nil => simp [fweight, dumpObjFields]
      | cons kv fs2 =>
        have hv : sizeOf kv.2 < n := by
          obtain ⟨k, v⟩ := kv
          simp only [List.cons.sizeOf_spec, Prod.mk.sizeOf_spec] at hsz
          simp only []
          omega
        have hjv := ((ih _ hv).1) kv.2 le_rfl (d + 1)
        cases fs2 with
        | nil =>
          simp only [fweight, dumpObjFields, jsIndent, List.length_cons, List.length_append,
            List.length_replicate, List.length_nil]
          omega
        | cons kv2 fs3 =>
          have hfs : sizeOf (kv2 :: fs3) < n := by
            simp only [List.cons.sizeOf_spec] at hsz ⊢
            omega
          have hl := ((ih _ hfs).2.2) (kv2 :: fs3) le_rfl d
          simp only [fweight, dumpObjFields, jsIndent, List.length_cons, List.length_append,
            List.length_replicate] at *
          omega

/-! ## Claim theorems -/

/-- Claim C10: for every log state, `get_recent_entries` with
`limit == 0` returns the entire log in insertion order, because the
Python slice `memory_data[-0:]` denotes the whole list. -/
theorem getRecentEntries_zero_returns_all (m : List Json) :
    getRecentEntries m 0 = m := by
  cases m <;> simp [getRecentEntries, pySliceFrom]

/-- Claim C9: after `clear_memory()`, `get_statistics()` reports
`total_entries == 0` and `success_rate == 0`; the guarded definition
never divides by the (zero) total on an empty log. -/
theorem clearMemory_statistics_zero (m : List Json) :
    (getStatistics (clearMemory m)).total_entries = 0 ∧
    (getStatistics (clearMemory m)).success_rate = 0 := by
  exact ⟨rfl, rfl⟩

/-- Claim C4 (code bug): `generate_id` derives the sequence part from
`len(memory_data)`, which shrinks on delete, so the interleaved
same-millisecond trace above hands out the id `mem_7_1` twice — the
returned ids are not pairwise unique. -/
theorem generateId_collision_on_burstTrace :
    (runOps [] burstTrace).2 = ["mem_7_0", "mem_7_1", "mem_7_1"] ∧
    ¬ (runOps [] burstTrace).2.Nodup := by
  decide

/-- Claim C5: when `command.agent` names a registered built-in handler,
`execute_command` routes to that handler, and the result is independent
of the plugin map — no plugin is consulted, whatever the plugins'
names. -/
theorem executeCommand_agent_wins (o : Orch) (c : Command) (a : AgentH)
    (h : lookupAgent o.agents c.agent = some a) :
    executeCommand o c = execBoundary (a.execute c.target c.parameters) ∧
    ∀ plugins2 : List (String × PluginH),
      executeCommand ⟨o.agents, plugins2⟩ c = executeCommand o c := by
  refine ⟨?_, fun plugins2 => ?_⟩ <;> simp [executeCommand, h]

/-- Witness for C5: a registry holding the stub `secops` handler plus a
plugin named `192.168.1.5` (a substring of the command's target, so the
plugin would match if consulted); the built-in still wins. -/
theorem executeCommand_agent_wins_witness :
    lookupAgent [("secops", stubSecops)] "secops" = some stubSecops ∧
    (executeCommand ⟨[("secops", stubSecops)], [("192.168.1.5", stubPlugin)]⟩
        { original_text := "", command_type := "security_scan", agent := "secops",
          target := "192.168.1.5", parameters := [], error := none,
          confidence := 1, timestamp := "t" } =
      execBoundary (stubSecops.execute "192.168.1.5" []) ∧
    ∀ plugins2 : List (String × PluginH),
      executeCommand ⟨[("secops", stubSecops)], plugins2⟩
          { original_text := "", command_type := "security_scan", agent := "secops",
            target := "192.168.1.5", parameters := [], error := none,
            confidence := 1, timestamp := "t" } =
        executeCommand ⟨[("secops", stubSecops)], [("192.168.1.5", stubPlugin)]⟩
          { original_text := "", command_type := "security_scan", agent := "secops",
            target := "192.168.1.5", parameters := [], error := none,
            confidence := 1, timestamp := "t" }) := by
  exact ⟨rfl, executeCommand_agent_wins ⟨[("secops", stubSecops)], [("192.168.1.5", stubPlugin)]⟩ _ stubSecops rfl⟩

/-- Claim C1 (counterexample): the empty input parses to an
error-tagged command, yet `process_text_command` passes exactly that
command to `execute_command` (here it even reaches the first plugin,
since the empty target is a substring of every plugin name) and appends
a dispatch entry to the audit log — the source checks neither
`command_type == "error"` nor `validate_command` before dispatching. -/
theorem errorCommand_is_dispatched_and_logged :
    (parseCommand "" "t0").command_type = "error" ∧
    (processTextCommand ⟨[], [("hello_world", stubPlugin)]⟩ [] "" 5 "t0").dispatched
      = [parseCommand "" "t0"] ∧
    executeCommand ⟨[], [("hello_world", stubPlugin)]⟩ (parseCommand "" "t0") = "ran:" ∧
    (processTextCommand ⟨[], [("hello_world", stubPlugin)]⟩ [] "" 5 "t0").mem.length = 1 := by
  decide

/-- Claim C1 (amended): on both entry paths, a Command whose
`command_type` is `"error"` is nevertheless passed to the registry's
`execute_command`, and the interaction is recorded in the audit log
(one entry is appended); no pre-dispatch rejection exists. -/
theorem errorCommand_dispatch_amended (o : Orch) (mem : List Json)
    (text : String) (ms : Nat) (iso : String)
    (_h : (parseCommand text iso).command_type = "error") :
    (handleTranscription o mem text ms iso).dispatched = [parseCommand text iso] ∧
    (processTextCommand o mem text ms iso).dispatched = [parseCommand text iso] ∧
    (handleTranscription o mem text ms iso).mem.length = mem.length + 1 ∧
    (processTextCommand o mem text ms iso).mem.length = mem.length + 1 := by
  refine ⟨rfl, rfl, ?_, ?_⟩ <;>
    simp [processTextCommand, handleTranscription, addEntry]

/-- Witness for the amended C1 at the concrete error input `""`. -/
theorem errorCommand_dispatch_amended_witness :
    (parseCommand "" "t0").command_type = "error" ∧
    ((handleTranscription ⟨[], []⟩ [] "" 5 "t0").dispatched = [parseCommand "" "t0"] ∧
     (processTextCommand ⟨[], []⟩ [] "" 5 "t0").dispatched = [parseCommand "" "t0"] ∧
     (handleTranscription ⟨[], []⟩ [] "" 5 "t0").mem.length = ([] : List Json).length + 1 ∧
     (processTextCommand ⟨[], []⟩ [] "" 5 "t0").mem.length = ([] : List Json).length + 1) := by
  exact ⟨by decide, errorCommand_dispatch_amended ⟨[], []⟩ [] "" 5 "t0" (by decide)⟩

/-- Claim C3 (counterexample): with a registered `secops` handler whose
`execute` raises, `"security scan now"` routes to it, the dispatch
boundary converts the exception to an error string — but the audit
entry the shared text path appends carries `success = true`, not
`false` (the source hardcodes `success=True` after dispatch). -/
theorem raisingHandler_logged_success_true :
    boomAgent.execute "now" [] = .exn "boom" ∧
    executeCommand ⟨[("secops", boomAgent)], []⟩ (parseCommand "security scan now" "t0")
      = "❌ Execution error: boom" ∧
    ((handleTranscription ⟨[("secops", boomAgent)], []⟩ [] "security scan now" 5 "t0").mem.map
        (fun e => jget e "success" .null)) = [Json.jbool true] := by
  decide

/-- Claim C3 (amended): when the matched handler's `execute` raises,
`execute_command` still returns a string result — the fixed error
string, so the exception never escapes to any caller — and exactly one
audit entry is appended for the interaction, but its `success` field is
`true` (the text path cannot observe the converted failure). -/
theorem raisingHandler_result_and_log (o : Orch) (mem : List Json)
    (text : String) (ms : Nat) (iso : String) (a : AgentH) (e : String)
    (hLook : lookupAgent o.agents (parseCommand text iso).agent = some a)
    (hRaise : a.execute (parseCommand text iso).target (parseCommand text iso).parameters
      = .exn e) :
    executeCommand o (parseCommand text iso) = "❌ Execution error: " ++ e ∧
    (handleTranscription o mem text ms iso).mem.length = mem.length + 1 ∧
    ((handleTranscription o mem text ms iso).mem.getLast?).map
        (fun en => jget en "success" .null) = some (Json.jbool true) := by
  refine ⟨?_, ?_, ?_⟩
  · simp [executeCommand, hLook, hRaise, execBoundary]
  · simp [handleTranscription, addEntry]
  · simp [handleTranscription, addEntry, jget]

/-- Witness for the amended C3 at the concrete raising registry. -/
theorem raisingHandler_result_and_log_witness :
    lookupAgent [("secops", boomAgent)] (parseCommand "security scan now" "t0").agent
      = some boomAgent ∧
    boomAgent.execute (parseCommand "security scan now" "t0").target
        (parseCommand "security scan now" "t0").parameters = .exn "boom" ∧
    (executeCommand ⟨[("secops", boomAgent)], []⟩ (parseCommand "security scan now" "t0")
        = "❌ Execution error: " ++ "boom" ∧
     (handleTranscription ⟨[("secops", boomAgent)], []⟩ [] "security scan now" 5 "t0").mem.length
        = ([] : List Json).length + 1 ∧
     ((handleTranscription ⟨[("secops", boomAgent)], []⟩ [] "security scan now" 5 "t0").mem.getLast?).map
        (fun en => jget en "success" .null) = some (Json.jbool true)) := by
  exact ⟨rfl, rfl,
    raisingHandler_result_and_log ⟨[("secops", boomAgent)], []⟩ [] "security scan now" 5 "t0"
      boomAgent "boom" rfl rfl⟩

set_option maxHeartbeats 2000000 in
/-- Sub-classification never yields the reserved `"error"` tag: every
branch of `_get_command_type` returns a fixed non-error literal. -/
theorem getCommandType_ne_error (t : List Char) (ag : String) :
    getCommandType t ag ≠ "error" := by
  unfold getCommandType
  split_ifs <;> decide

/-- Group scanning never yields the `"error"` tag either: the result is
a `_get_command_type` literal or the `"general"` default. -/
theorem identifyCommandType_ne_error (tl : List Char) :
    (identifyCommandType tl).1 ≠ "error" := by
  unfold identifyCommandType
  rcases h : commandPatterns.find? (fun ag => ag.2.any (fun p => (rsearch true p tl).isSome))
    with _ | ag
  · simp only [h]
    decide
  · simp only [h]
    exact getCommandType_ne_error tl ag.1

/-- Confidence lies in `[0,1]`: the additions keep it at least the base
`1/2 ≥ 0` and the final `min` clamps it to `1`. -/
theorem calculateConfidence_mem_Icc (t : List Char) (ct : String) :
    0 ≤ calculateConfidence t ct ∧ calculateConfidence t ct ≤ 1 := by
  unfold calculateConfidence
  refine ⟨le_min ?_ (by norm_num), min_le_right _ _⟩
  split_ifs <;> norm_num

/-- Claim C6: for input that is non-empty after trimming,
`parse_command` returns confidence in `[0,1]` and a non-error command
type; for empty or whitespace-only input it returns the error command:
`command_type == "error"`, confidence `0`, agent `"unknown"`. -/
theorem parseCommand_wellformed (text now : String) :
    (pyStrip text.data ≠ [] →
      (parseCommand text now).command_type ≠ "error" ∧
      0 ≤ (parseCommand text now).confidence ∧
      (parseCommand text now).confidence ≤ 1) ∧
    (pyStrip text.data = [] →
      (parseCommand text now).command_type = "error" ∧
      (parseCommand text now).confidence = 0 ∧
      (parseCommand text now).agent = "unknown") := by
  constructor
  · intro hne
    have hE : (pyStrip text.data).isEmpty = false := by
      cases hp : pyStrip text.data with
      | nil => exact absurd hp hne
      | cons c cs => rfl
    simp only [parseCommand, hE, Bool.false_eq_true, if_false]
    exact ⟨identifyCommandType_ne_error _, calculateConfidence_mem_Icc _ _⟩
  · intro heq
    have hE : (pyStrip text.data).isEmpty = true := by rw [heq]; rfl
    simp only [parseCommand, hE, if_true]
    exact ⟨rfl, rfl, rfl⟩

/-- Witness for C6 at the concrete inputs `"hi"` (non-empty) and
`"  "` (whitespace-only). -/
theorem parseCommand_wellformed_witness :
    (pyStrip ("hi" : String).data ≠ [] ∧
      ((parseCommand "hi" "t0").command_type ≠ "error" ∧
       0 ≤ (parseCommand "hi" "t0").confidence ∧
       (parseCommand "hi" "t0").confidence ≤ 1)) ∧
    (pyStrip ("  " : String).data = [] ∧
      ((parseCommand "  " "t0").command_type = "error" ∧
       (parseCommand "  " "t0").confidence = 0 ∧
       (parseCommand "  " "t0").agent = "unknown")) := by
  exact ⟨⟨by decide, (parseCommand_wellformed "hi" "t0").1 (by decide)⟩,
    ⟨by decide, (parseCommand_wellformed "  " "t0").2 (by decide)⟩⟩

/-- Loop invariant of `search_entries`: while the accumulated results
are still below the limit, the loop returns the accumulator followed by
the matching entries, truncated to the space left under the limit. -/
theorem searchGoM_spec (ql : List Char) (limit : Int) :
    ∀ (es acc : List Json), (acc.length : Int) < limit →
      searchGoM ql limit es acc
        = acc ++ (es.filter (entryMatches ql)).take (limit - acc.length).toNat := by
  intro es
  induction es with
  | nil =>
    intro acc _
    simp [searchGoM]
  | cons e rest ih =>
    intro acc hlt
    by_cases hm : entryMatches ql e
    · by_cases hstop : limit ≤ ((acc ++ [e]).length : Int)
      · have h1 : (limit - acc.length).toNat = 1 := by
          simp only [List.length_append, List.length_cons, List.length_nil] at hstop
          omega
        simp only [searchGoM, hm, if_true]
        rw [if_pos hstop, h1]
        simp [List.filter_cons, hm]
      · have hlt2 : (((acc ++ [e]).length : Int)) < limit := by omega
        have h2 : (limit - acc.length).toNat = (limit - (acc ++ [e]).length).toNat + 1 := by
          simp only [List.length_append, List.length_cons, List.length_nil]
          simp only [List.length_append, List.length_cons, List.length_nil] at hlt2
          omega
        simp only [searchGoM, hm, if_true, hstop, if_false]
        rw [ih (acc ++ [e]) hlt2]
        simp [h2, List.filter_cons, hm]
    · simp only [searchGoM, hm]
      simp only [Bool.false_eq_true, if_false]
      rw [ih acc hlt]
      simp [List.filter_cons, hm]

/-- Claim C7 (counterexample): with `limit = 0` and one matching entry,
`search_entries` returns that entry — the break test `len(results) >=
limit` runs only after an append, so the result is not `≤ 0` entries. -/
theorem searchEntries_limit_zero_overflow :
    (searchEntries [fooEntry] "foo" 0).length = 1 ∧
    ¬ (((searchEntries [fooEntry] "foo" 0).length : Int) ≤ 0) := by
  decide

/-- Claim C7 (amended): for every query and every limit `n ≥ 1`,
`search_entries` returns exactly the first `n` case-insensitive matches
of the reverse scan — hence at most `n` entries, all matching the query
in command or result text, in most-recent-first order (a sublist of the
reversed log), stopping once `n` matches are found. -/
theorem searchEntries_spec (m : List Json) (q : String) (limit : Int)
    (h : 1 ≤ limit) :
    searchEntries m q limit
      = (m.reverse.filter (entryMatches (lowerL q.data))).take limit.toNat ∧
    ((searchEntries m q limit).length : Int) ≤ limit ∧
    (∀ e ∈ searchEntries m q limit, entryMatches (lowerL q.data) e = true) ∧
    (searchEntries m q limit).Sublist m.reverse := by
  have hmain : searchEntries m q limit
      = (m.reverse.filter (entryMatches (lowerL q.data))).take limit.toNat := by
    unfold searchEntries
    rw [searchGoM_spec (lowerL q.data) limit m.reverse [] (by simpa using h)]
    simp
  refine ⟨hmain, ?_, ?_, ?_⟩
  · rw [hmain]
    have := List.length_take_le limit.toNat (m.reverse.filter (entryMatches (lowerL q.data)))
    omega
  · intro e he
    rw [hmain] at he
    have := List.take_subset limit.toNat (m.reverse.filter (entryMatches (lowerL q.data))) he
    exact (List.mem_filter.mp this).2
  · rw [hmain]
    exact (List.take_sublist _ _).trans (List.filter_sublist _)

/-- Witness for the amended C7 on a two-entry log with limit 1. -/
theorem searchEntries_spec_witness :
    (1 : Int) ≤ 1 ∧
    (searchEntries [fooEntry, fooEntry] "foo" 1
        = (([fooEntry, fooEntry] : List Json).reverse.filter
            (entryMatches (lowerL ("foo" : String).data))).take (1 : Int).toNat ∧
      ((searchEntries [fooEntry, fooEntry] "foo" 1).length : Int) ≤ 1 ∧
      (∀ e ∈ searchEntries [fooEntry, fooEntry] "foo" 1,
        entryMatches (lowerL ("foo" : String).data) e = true) ∧
      (searchEntries [fooEntry, fooEntry] "foo" 1).Sublist
        ([fooEntry, fooEntry] : List Json).reverse) := by
  exact ⟨by decide, searchEntries_spec [fooEntry, fooEntry] "foo" 1 (by decide)⟩

/-- Claim C2 (counterexample): `"scan 192.168.1.5 for vulnerabilities"`
does not parse to the `secops` agent: the IP literal sits between the
scan verb and `"for vulnerabilities"`, so no secops pattern matches
(pattern 1 requires the object right after the verb) and the group scan
falls through to the `('general', 'orchestrator')` default. -/
theorem scanIpInput_not_secops :
    (parseCommand "scan 192.168.1.5 for vulnerabilities" "t0").agent = "orchestrator" ∧
    (parseCommand "scan 192.168.1.5 for vulnerabilities" "t0").command_type = "general" ∧
    ¬ ((parseCommand "scan 192.168.1.5 for vulnerabilities" "t0").agent = "secops" ∧
       (parseCommand "scan 192.168.1.5 for vulnerabilities" "t0").command_type = "security_scan") := by
  refine ⟨rfl, rfl, fun hc => ?_⟩
  have h1 : (parseCommand "scan 192.168.1.5 for vulnerabilities" "t0").agent = "orchestrator" := rfl
  rw [h1] at hc
  exact absurd hc.1 (by decide)

/-- Claim C2 (amended): parsing `"scan 192.168.1.5 for vulnerabilities"`
yields target `"192.168.1.5"` and `parameters.ip_addresses ==
["192.168.1.5"]` as claimed, but agent `"orchestrator"` and
`command_type "general"` (not `"secops"` / `"security_scan"`). -/
theorem scanIpInput_parse_fields :
    (parseCommand "scan 192.168.1.5 for vulnerabilities" "t0").target = "192.168.1.5" ∧
    (parseCommand "scan 192.168.1.5 for vulnerabilities" "t0").parameters
      = [("ip_addresses", PVal.strs ["192.168.1.5"])] ∧
    (parseCommand "scan 192.168.1.5 for vulnerabilities" "t0").agent = "orchestrator" ∧
    (parseCommand "scan 192.168.1.5 for vulnerabilities" "t0").command_type = "general" := by
  exact ⟨rfl, rfl, rfl, rfl⟩

/-- Claim C8: `export_memory` followed by `import_memory` into a fresh
(empty) log reproduces the exported entry list exactly, and the
exported file is the plain serialized form — `save_memory`'s encrypted
content is precisely the cipher applied on top of it, so no encryption
touches the export path. -/
theorem exportImport_roundtrip (m : List Json) :
    importMemory [] (exportMemory m) = (m, true) ∧
    (∀ encrypt : String → String, saveMemoryContent encrypt m = encrypt (exportMemory m)) := by
  refine ⟨?_, fun encrypt => rfl⟩
  have hfuel : jweight (Json.jarr m) < (dumpsVal 0 (Json.jarr m)).length + 1 := by
    have := (weight_le_dumps_len (sizeOf (Json.jarr m))).1 (Json.jarr m) le_rfl 0
    omega
  have h := (parse_dumps ((dumpsVal 0 (Json.jarr m)).length + 1)).1 (Json.jarr m) 0 [] hfuel
  rw [List.append_nil] at h
  have hdata : (String.mk (dumpsVal 0 (Json.jarr m))).data = dumpsVal 0 (Json.jarr m) := rfl
  unfold importMemory exportMemory loads dumps
  rw [hdata, h]
  simp [skipJWs]

end IGED
